import Mathlib

/-
Verification development for `tools/build_local_inventory.py`, a one-file
batch transform that fetches a Google-Shopping-style XML feed, extracts item
records, normalizes availability values, and writes an XML and a TSV output.

The Python script is shallowly embedded below: strings are `String`/`List Char`,
the parsed XML document is a finitely-branching tree (`XElem`), fallible code
returns `Except`, and the effectful parts (network fetch, file writes) are
modelled by explicit outcome parameters and an explicit file-system record.
-/

namespace LIA

/-! ## Python string primitives

`str.strip()`, `str.lower()` and the regex `\s+` are modelled on the
whitespace characters and letters that can occur in this program's data:
ASCII whitespace, ASCII letters, and the Polish letter Ę appearing in the
availability synonym table. -/

/-- Whitespace test: the characters matched by Python's `\s` (ASCII range)
and stripped by `str.strip()`. -/
def isWs (c : Char) : Bool :=
  c.toNat = 32 || c.toNat = 9 || c.toNat = 10 || c.toNat = 13 || c.toNat = 11 || c.toNat = 12

/-- Python `str.lower()` on one character: ASCII letters plus Ę→ę (the only
non-ASCII letter occurring in the synonym table). -/
def pyLowerChar (c : Char) : Char :=
  match c with
  | 'A' => 'a' | 'B' => 'b' | 'C' => 'c' | 'D' => 'd' | 'E' => 'e' | 'F' => 'f'
  | 'G' => 'g' | 'H' => 'h' | 'I' => 'i' | 'J' => 'j' | 'K' => 'k' | 'L' => 'l'
  | 'M' => 'm' | 'N' => 'n' | 'O' => 'o' | 'P' => 'p' | 'Q' => 'q' | 'R' => 'r'
  | 'S' => 's' | 'T' => 't' | 'U' => 'u' | 'V' => 'v' | 'W' => 'w' | 'X' => 'x'
  | 'Y' => 'y' | 'Z' => 'z' | 'Ę' => 'ę' | c => c

/-- Drop trailing whitespace (the right half of Python `str.strip()`). -/
def stripRight : List Char → List Char
  | [] => []
  | c :: t =>
    let r := stripRight t
    if r.isEmpty then (if isWs c then [] else [c]) else c :: r

/-- Python `str.strip()` on a character list. -/
def pyStripL (l : List Char) : List Char := stripRight (l.dropWhile isWs)

/-- Python `str.strip()`. -/
def pyStrip (s : String) : String := ⟨pyStripL s.data⟩

/-- One pass of `re.sub(r"\s+", " ", ·)`: the boolean records whether the
previous character was whitespace (so a run emits a single space). -/
def collapseWsAux : Bool → List Char → List Char
  | _, [] => []
  | prevWs, c :: t =>
    if isWs c then
      (if prevWs then collapseWsAux true t else ' ' :: collapseWsAux true t)
    else c :: collapseWsAux false t

/-- The key built by `normalize_availability`:
`re.sub(r"\s+", " ", val.strip().lower())`. -/
def normKey (v : String) : String :=
  ⟨collapseWsAux false ((pyStripL v.data).map pyLowerChar)⟩

/-! ## The availability synonym table and normalizer -/

/-- The `_ALLOWED_AVAIL` dict, as an association list in source order. -/
def _ALLOWED_AVAIL : List (String × String) :=
  [("in stock", "in_stock"),
   ("in_stock", "in_stock"),
   ("available", "in_stock"),
   ("preorder", "preorder"),
   ("out of stock", "out_of_stock"),
   ("out_of_stock", "out_of_stock"),
   ("on display to order", "on_display_to_order"),
   ("on_display_to_order", "on_display_to_order"),
   ("limited availability", "limited_availability"),
   ("limited_availability", "limited_availability"),
   ("dostępny", "in_stock"),
   ("niedostępny", "out_of_stock"),
   ("brak", "out_of_stock")]

/-- The source's `normalize_availability(val)`, parametrized by the configured
`DEFAULT_AVAILABILITY`.  `none`/`some ""` model Python's falsy inputs
(`if not val`). -/
def normalize_availability (dflt : String) (val : Option String) : String :=
  match val with
  | none => dflt
  | some v => if v = "" then dflt else (_ALLOWED_AVAIL.lookup (normKey v)).getD dflt

/-! ## Word decomposition, for stating the case/whitespace-variant claim

A "variant of a key differing only in letter case, leading/trailing
whitespace, or internal whitespace runs" is a string with the same sequence
of lowercased whitespace-separated words. -/

/-- Split into maximal non-whitespace runs; `acc` is the reversed current word. -/
def splitWsAux : List Char → List Char → List (List Char)
  | acc, [] => if acc.isEmpty then [] else [acc.reverse]
  | acc, c :: t =>
    if isWs c then
      (if acc.isEmpty then splitWsAux [] t else acc.reverse :: splitWsAux [] t)
    else splitWsAux (c :: acc) t

/-- The whitespace-separated words of a character list. -/
def splitWs (l : List Char) : List (List Char) := splitWsAux [] l

/-- Join words with single spaces. -/
def unwords : List (List Char) → List Char
  | [] => []
  | [w] => w
  | w :: x :: t => w ++ ' ' :: unwords (x :: t)

/-- The lowercased word sequence of a string; two strings are case/whitespace
variants of each other exactly when these agree. -/
def wordsLower (s : String) : List (List Char) := splitWs (s.data.map pyLowerChar)

/-! ## The parsed XML document

An `ElementTree` element: a qualified tag (the brace-qualified
namespace-uri form used by ElementTree is modelled as an optional namespace
paired with a local name), optional text, and a child list.  Attributes are not
modelled (the script reads none).  `XList` is a specialized child list so
that all recursions are structural. -/

structure QTag where
  ns : Option String
  tagname : String
deriving DecidableEq

mutual
inductive XElem where
  | mk (tag : QTag) (text : Option String) (children : XList)
deriving DecidableEq
inductive XList where
  | nil
  | cons (e : XElem) (rest : XList)
deriving DecidableEq
end

def XElem.tag : XElem → QTag
  | .mk t _ _ => t

def XElem.text : XElem → Option String
  | .mk _ x _ => x

def XElem.children : XElem → XList
  | .mk _ _ cs => cs

def XList.toList : XList → List XElem
  | .nil => []
  | .cons e es => e :: es.toList

def XList.ofList : List XElem → XList
  | [] => .nil
  | e :: es => .cons e (XList.ofList es)

/-- The Google namespace URI bound to prefix `g` in `NS`. -/
def gNS : String := "http://base.google.com/ns/1.0"

/-- A tag in the `g` namespace. -/
def gTag (n : String) : QTag := ⟨some gNS, n⟩

/-- A tag with no namespace. -/
def plainTag (n : String) : QTag := ⟨none, n⟩

/-- ElementTree `Element.find(path)` for a single-tag path: the first direct child with
the given tag. -/
def XList.findTag (t : QTag) : XList → Option XElem
  | .nil => none
  | .cons c cs => if c.tag = t then some c else cs.findTag t

def XElem.find (e : XElem) (t : QTag) : Option XElem := e.children.findTag t

/-- ElementTree `Element.findtext(path, default=None)`: `none` when the child is
missing, and the child's text with `None` text read as `""` otherwise. -/
def XElem.findtext (e : XElem) (t : QTag) : Option String :=
  (e.find t).map (fun c => c.text.getD "")

/-- Python `a or b` on string-or-None values (`None` and `""` are falsy). -/
def pyOr : Option String → Option String → Option String
  | none, b => b
  | some s, b => if s = "" then b else some s

mutual
/-- ElementTree `Element.iter()` from a given element: the element and all its
descendants in document (preorder) order. -/
def XElem.subtree : XElem → List XElem
  | .mk t x cs => .mk t x cs :: cs.subtrees
def XList.subtrees : XList → List XElem
  | .nil => []
  | .cons c cs => c.subtree ++ cs.subtrees
end

/-- All proper descendants of an element in document order. -/
def XElem.descendants (e : XElem) : List XElem := e.children.subtrees

/-- The query `root.findall(".//item")`: all descendant elements tagged `item`
(no namespace), in document order. -/
def XElem.findallItems (e : XElem) : List XElem :=
  e.descendants.filter (fun d => decide (d.tag = plainTag "item"))

/-! ## Item extraction -/

/-- One extracted product entry. -/
structure Item where
  id : String
  availability : String
  price : Option String
deriving DecidableEq

/-- The guard `normalize_availability(availability) if availability else
DEFAULT_AVAILABILITY` (the guard used at both item-building sites). -/
def availOrDefault (dflt : String) (a : Option String) : String :=
  match a with
  | none => dflt
  | some s => if s = "" then dflt else normalize_availability dflt (some s)

/-- The guard `price.strip() if price else None`. -/
def priceOrNone (p : Option String) : Option String :=
  match p with
  | none => none
  | some s => if s = "" then none else some (pyStrip s)

/-- The body of extraction pass 1 for one `item` element: identifier from
`g:id` with plain `id` fallback, skipped when falsy; availability and price
read the same way. -/
def itemFromRssItem (dflt : String) (it : XElem) : Option Item :=
  match pyOr (it.findtext (gTag "id")) (it.findtext (plainTag "id")) with
  | none => none
  | some gid =>
    if gid = "" then none
    else some
      { id := pyStrip gid
        availability := availOrDefault dflt
          (pyOr (it.findtext (gTag "availability")) (it.findtext (plainTag "availability")))
        price := priceOrNone
          (pyOr (it.findtext (gTag "price")) (it.findtext (plainTag "price"))) }

/-- Extraction pass 1: all `item` descendants, in document order. -/
def passOne (dflt : String) (root : XElem) : List Item :=
  root.findallItems.filterMap (itemFromRssItem dflt)

/-- The pass-2 guard: a node contributes only when it has a direct `g:id`
child whose text is truthy and truthy after stripping; the identifier used
is the stripped text. -/
def fallbackGid (node : XElem) : Option String :=
  match node.find (gTag "id") with
  | none => none
  | some gid_el =>
    match gid_el.text with
    | none => none
    | some t => if t = "" then none else if pyStrip t = "" then none else some (pyStrip t)

/-- The pass-2 item for a node that passed the guard: availability and
price come from namespaced direct children only. -/
def itemFromNode (dflt : String) (node : XElem) (gid : String) : Item :=
  { id := gid
    availability := availOrDefault dflt (node.findtext (gTag "availability"))
    price := priceOrNone (node.findtext (gTag "price")) }

/-- Extraction pass 2 over the node walk, with the `seen` identifier set. -/
def passTwoGo (dflt : String) : List XElem → List String → List Item
  | [], _ => []
  | n :: ns, seen =>
    match fallbackGid n with
    | none => passTwoGo dflt ns seen
    | some gid =>
      if gid ∈ seen then passTwoGo dflt ns seen
      else itemFromNode dflt n gid :: passTwoGo dflt ns (gid :: seen)

/-- Extraction pass 2: walk every node of the document (`root.iter()`),
keeping the first occurrence of each identifier. -/
def passTwo (dflt : String) (root : XElem) : List Item :=
  passTwoGo dflt root.subtree []

/-- The structural-failure message raised when both passes yield nothing. -/
def noItemsMsg : String :=
  "No items with <g:id> found in source feed (unexpected source structure)"

/-- The source's `extract_items(tree)`: pass 1, pass 2 only when pass 1 found nothing,
error when both are empty. -/
def extract_items (dflt : String) (root : XElem) : Except String (List Item) :=
  let items := passOne dflt root
  let items2 := if items.isEmpty then passTwo dflt root else items
  if items2.isEmpty then .error noItemsMsg else .ok items2

/-! ## Writers -/

/-- The `item` element built by `write_xml` for one Item: namespaced `id`,
`store_code`, `availability`, and `price` only when truthy. -/
def write_xml_item (store : String) (it : Item) : XElem :=
  ⟨plainTag "item", none,
    XList.ofList
      ([⟨gTag "id", some it.id, .nil⟩,
        ⟨gTag "store_code", some store, .nil⟩,
        ⟨gTag "availability", some it.availability, .nil⟩]
       ++ (match it.price with
           | none => []
           | some p => if p = "" then [] else [⟨gTag "price", some p, .nil⟩]))⟩

/-- The source's `write_xml(items, ·)`: the RSS document (the `version="2.0"` attribute
and serialization details are not modelled). -/
def write_xml (store : String) (items : List Item) : XElem :=
  ⟨plainTag "rss", none,
    .cons
      ⟨plainTag "channel", none,
        XList.ofList
          ([⟨plainTag "title", some "Local Inventory Feed", .nil⟩,
            ⟨plainTag "link", some "https://example.invalid/", .nil⟩,
            ⟨plainTag "description", some "Generated by LIA Builder", .nil⟩]
           ++ items.map (write_xml_item store))⟩
      .nil⟩

/-- One TSV data row: `[id, store_code, availability, price or ""]`. -/
def write_tsv_row (store : String) (it : Item) : List String :=
  [it.id, store, it.availability, it.price.getD ""]

/-- The source's `write_tsv(items, ·)`: header row then one row per item. -/
def write_tsv (store : String) (items : List Item) : List (List String) :=
  ["id", "store_code", "availability", "price"] :: items.map (write_tsv_row store)

/-- The `item` entries of the document produced by `write_xml`, read back
from the tree: the children of `channel` tagged `item`, in order. -/
def xmlItemEntries (store : String) (items : List Item) : List XElem :=
  (((write_xml store items).children.toList.headD ⟨plainTag "channel", none, .nil⟩).children.toList).filter
    (fun e => decide (e.tag = plainTag "item"))

/-- The TSV-comparable row of an XML `item` entry: the texts of its `id`,
`store_code` and `availability` children, and of its `price` child with an
omitted element read as `""`. -/
def rowOfXmlItem (e : XElem) : List String :=
  [((e.find (gTag "id")).bind XElem.text).getD "",
   ((e.find (gTag "store_code")).bind XElem.text).getD "",
   ((e.find (gTag "availability")).bind XElem.text).getD "",
   ((e.find (gTag "price")).bind XElem.text).getD ""]

/-! ## Fetch with retry

The network is modelled by an oracle giving each attempt's outcome (a
successfully parsed document, or the exception raised by that attempt —
transport failure, empty body, or non-XML body alike).  The result records
the returned or re-raised value, the number of attempts made, and the list
of `time.sleep` durations performed, in order. -/

/-- The `for attempt in range(3)` loop of `fetch_xml`; `fuel` counts the
retries remaining (`attempt < 2` in source is `fuel > 0` here). -/
def fetchGo (oracle : Nat → Except String XElem) :
    Nat → Nat → List Nat → Except String XElem × Nat × List Nat
  | attempt, fuel, sleeps =>
    match oracle attempt with
    | .ok d => (.ok d, attempt + 1, sleeps)
    | .error e =>
      match fuel with
      | 0 => (.error e, attempt + 1, sleeps)
      | fuel' + 1 => fetchGo oracle (attempt + 1) fuel' (sleeps ++ [2 * (attempt + 1)])

/-- The source's `fetch_xml(url)`: up to 3 attempts, sleeping `2 * (attempt + 1)`
seconds after each non-final failure, re-raising the last error. -/
def fetch_xml (oracle : Nat → Except String XElem) :
    Except String XElem × Nat × List Nat :=
  fetchGo oracle 0 2 []

/-! ## The pipeline (`main` plus the module-level configuration check) -/

/-- Which of the two output files exist in `dist/` after the run. -/
structure DistFS where
  xml_written : Bool
  tsv_written : Bool
deriving DecidableEq

/-- One run of the script: the module-level configuration check, then
`main` (fetch, extract, write XML, write TSV).  `cfgOk` is whether both
required environment variables are set; `fetched` is the outcome of
`fetch_xml`; `xmlWriteOk`/`tsvWriteOk` are whether the two file writes
succeed (a failed write is modelled as leaving no file).  Returns the
process outcome and the resulting output-file state. -/
def mainRun (cfgOk : Bool) (fetched : Except String XElem) (dflt : String)
    (xmlWriteOk tsvWriteOk : Bool) : Except String Unit × DistFS :=
  if cfgOk = false then
    (.error "missing SOURCE_FEED_URL or STORE_CODE env vars", ⟨false, false⟩)
  else
    match fetched with
    | .error e => (.error e, ⟨false, false⟩)
    | .ok tree =>
      match extract_items dflt tree with
      | .error e => (.error e, ⟨false, false⟩)
      | .ok _ =>
        if xmlWriteOk = false then (.error "write failed", ⟨false, false⟩)
        else if tsvWriteOk = false then (.error "write failed", ⟨true, false⟩)
        else (.ok (), ⟨true, true⟩)

/-! ## Concrete documents used in scenario theorems -/

/-- Build an element from a plain child list. -/
def el (t : QTag) (x : Option String) (cs : List XElem) : XElem :=
  ⟨t, x, XList.ofList cs⟩

/-- An RSS feed with two items `A1` (availability `"in stock"`) and `A2`
(availability `"Brak"`). -/
def exDocBasic : XElem :=
  el (plainTag "rss") none
    [el (plainTag "channel") none
      [el (plainTag "item") none
        [el (gTag "id") (some "A1") [], el (gTag "availability") (some "in stock") []],
       el (plainTag "item") none
        [el (gTag "id") (some "A2") [], el (gTag "availability") (some "Brak") []]]]

/-- An RSS feed with a single item whose `g:id` text is whitespace only. -/
def exDocWsId : XElem :=
  el (plainTag "rss") none
    [el (plainTag "channel") none
      [el (plainTag "item") none [el (gTag "id") (some " ") []]]]

/-- A feed with no `item` elements and three nodes bearing direct `g:id`
children `B1`, `B2`, `B1`. -/
def exDocFallback : XElem :=
  el (plainTag "feed") none
    [el (plainTag "entry") none [el (gTag "id") (some "B1") []],
     el (plainTag "entry") none [el (gTag "id") (some "B2") []],
     el (plainTag "entry") none [el (gTag "id") (some "B1") []]]

/-- An RSS feed in the primary shape with two `item` elements sharing the
identifier `X`. -/
def exDocDupPrimary : XElem :=
  el (plainTag "rss") none
    [el (plainTag "channel") none
      [el (plainTag "item") none
        [el (gTag "id") (some "X") [], el (gTag "price") (some "10.00 PLN") []],
       el (plainTag "item") none
        [el (gTag "id") (some "X") [], el (gTag "price") (some "12.00 PLN") []]]]

/-- A feed with no `item` elements and two nodes bearing the same direct
`g:id` identifier `X`. -/
def exDocDupNodes : XElem :=
  el (plainTag "feed") none
    [el (plainTag "entry") none [el (gTag "id") (some "X") []],
     el (plainTag "entry") none [el (gTag "id") (some "X") []]]

/-- A well-formed but itemless document. -/
def exDocEmpty : XElem := el (plainTag "rss") none [el (plainTag "channel") none []]

/-! ### Normal-form lemmas: the collapsed stripped string is the
single-space join of the words -/

theorem stripRight_cons (c : Char) (t : List Char) :
    stripRight (c :: t)
      = if stripRight t = [] then (if isWs c then [] else [c])
        else c :: stripRight t := by
  simp only [stripRight]
  by_cases hr : stripRight t = [] <;> simp [hr, List.isEmpty_iff]

theorem stripRight_cons_not_ws {c : Char} (t : List Char) (h : isWs c = false) :
    stripRight (c :: t) = c :: stripRight t := by
  rw [stripRight_cons]
  by_cases hr : stripRight t = [] <;> simp [hr, h]

theorem stripRight_eq_nil_iff {u : List Char} :
    stripRight u = [] ↔ ∀ c ∈ u, isWs c = true := by
  induction u with
  | nil => simp [stripRight]
  | cons c t ih =>
    rw [stripRight_cons]
    constructor
    · intro h
      by_cases hr : stripRight t = []
      · rw [if_pos hr] at h
        by_cases hc : isWs c = true
        · intro x hx
          rcases List.mem_cons.mp hx with rfl | hx
          · exact hc
          · exact ih.mp hr x hx
        · rw [if_neg hc] at h
          exact absurd h (by simp)
      · rw [if_neg hr] at h
        exact absurd h (by simp)
    · intro h
      have hr : stripRight t = [] := ih.mpr fun x hx => h x (List.mem_cons_of_mem _ hx)
      rw [if_pos hr, if_pos (h c (List.mem_cons_self _ _))]

theorem splitWsAux_nil_cons (c : Char) (t : List Char) :
    splitWsAux [] (c :: t)
      = if isWs c then splitWsAux [] t else splitWsAux [c] t := by
  simp [splitWsAux]

theorem splitWsAux_acc_cons (a : Char) (acc : List Char) (c : Char) (t : List Char) :
    splitWsAux (a :: acc) (c :: t)
      = if isWs c then (a :: acc).reverse :: splitWsAux [] t
        else splitWsAux (c :: a :: acc) t := by
  simp [splitWsAux]

theorem splitWsAux_acc_ne_nil (t : List Char) :
    ∀ (a : Char) (acc : List Char), splitWsAux (a :: acc) t ≠ [] := by
  induction t with
  | nil => intro a acc; simp [splitWsAux]
  | cons d u ih =>
    intro a acc
    rw [splitWsAux_acc_cons]
    by_cases hd : isWs d = true
    · simp [hd]
    · simpa [hd] using ih d (a :: acc)

theorem splitWsAux_nil_eq_nil_iff {u : List Char} :
    splitWsAux [] u = [] ↔ ∀ c ∈ u, isWs c = true := by
  induction u with
  | nil => simp [splitWsAux]
  | cons c t ih =>
    rw [splitWsAux_nil_cons]
    by_cases hc : isWs c = true
    · rw [if_pos hc, ih]
      constructor
      · intro h x hx
        rcases List.mem_cons.mp hx with rfl | hx
        · exact hc
        · exact h x hx
      · intro h x hx
        exact h x (List.mem_cons_of_mem _ hx)
    · rw [if_neg hc]
      constructor
      · intro h
        exact absurd h (splitWsAux_acc_ne_nil t c [])
      · intro h
        exact absurd (h c (List.mem_cons_self _ _)) hc

theorem collapseWsAux_true_eq (t : List Char) :
    collapseWsAux true t = collapseWsAux false (t.dropWhile isWs) := by
  induction t with
  | nil => simp [collapseWsAux]
  | cons c u ih =>
    cases hc : isWs c with
    | true => simp [collapseWsAux, hc, List.dropWhile_cons, ih]
    | false => simp [collapseWsAux, hc, List.dropWhile_cons]

theorem dropWhile_stripRight_comm (u : List Char) :
    (stripRight u).dropWhile isWs = stripRight (u.dropWhile isWs) := by
  induction u with
  | nil => simp [stripRight]
  | cons c t ih =>
    cases hc : isWs c with
    | true =>
      by_cases hr : stripRight t = []
      · have ht : ∀ d ∈ t, isWs d = true := stripRight_eq_nil_iff.mp hr
        have : t.dropWhile isWs = [] := by
          cases t with
          | nil => rfl
          | cons a b =>
            rw [List.dropWhile_eq_nil_iff]
            intro x hx
            exact ht x hx
        simp [stripRight, hr, hc, List.dropWhile_cons, this, List.isEmpty_iff]
      · have : stripRight (c :: t) = c :: stripRight t := by
          simp only [stripRight]
          simp [List.isEmpty_iff, hr]
        rw [this, List.dropWhile_cons]
        simp only [hc, if_true]
        rw [ih, List.dropWhile_cons]
        simp [hc]
    | false =>
      rw [stripRight_cons_not_ws t hc, List.dropWhile_cons, List.dropWhile_cons]
      simp [hc, stripRight_cons_not_ws _ hc]

theorem unwords_cons_cons (w x : List Char) (t : List (List Char)) :
    unwords (w :: x :: t) = w ++ ' ' :: unwords (x :: t) := by
  simp [unwords]

/-- The simultaneous induction behind the normal-form theorem:
with an empty accumulator the join of the remaining words equals the
whitespace-skipping collapse of the right-stripped input, and with a
non-empty accumulator the join is the accumulator followed by the
plain collapse. -/
theorem splitWsAux_unwords (u : List Char) :
    (unwords (splitWsAux [] u) = collapseWsAux true (stripRight u))
    ∧ ∀ (c : Char) (acc : List Char),
        unwords (splitWsAux (c :: acc) u)
          = (c :: acc).reverse ++ collapseWsAux false (stripRight u) := by
  induction u with
  | nil =>
    constructor
    · simp [splitWsAux, unwords, stripRight, collapseWsAux]
    · intro c acc
      simp [splitWsAux, unwords, stripRight, collapseWsAux]
  | cons d v ih =>
    constructor
    · cases hd : isWs d with
      | true =>
        have h1 : splitWsAux [] (d :: v) = splitWsAux [] v := by
          simp [splitWsAux, hd]
        rw [h1, ih.1]
        by_cases hr : stripRight v = []
        · rw [hr]
          have : stripRight (d :: v) = [] := by
            simp [stripRight, hr, List.isEmpty_iff, hd]
          rw [this]
        · have : stripRight (d :: v) = d :: stripRight v := by
            simp only [stripRight]
            simp [List.isEmpty_iff, hr]
          rw [this]
          simp [collapseWsAux, hd]
      | false =>
        have h1 : splitWsAux [] (d :: v) = splitWsAux [d] v := by
          simp [splitWsAux, hd]
        rw [h1, ih.2 d []]
        rw [stripRight_cons_not_ws v hd]
        simp [collapseWsAux, hd]
    · intro c acc
      cases hd : isWs d with
      | true =>
        have h1 : splitWsAux (c :: acc) (d :: v)
            = (c :: acc).reverse :: splitWsAux [] v := by
          simp [splitWsAux, hd]
        rw [h1]
        by_cases hr : stripRight v = []
        · have hv : ∀ x ∈ v, isWs x = true := stripRight_eq_nil_iff.mp hr
          have h2 : splitWsAux [] v = [] := splitWsAux_nil_eq_nil_iff.mpr hv
          have h3 : stripRight (d :: v) = [] := by
            simp [stripRight, hr, List.isEmpty_iff, hd]
          rw [h2, h3]
          simp [unwords, collapseWsAux]
        · have h4 : stripRight (d :: v) = d :: stripRight v := by
            simp only [stripRight]
            simp [List.isEmpty_iff, hr]
          have h5 : splitWsAux [] v ≠ [] := by
            intro h
            exact hr (stripRight_eq_nil_iff.mpr (splitWsAux_nil_eq_nil_iff.mp h))
          rw [h4]
          cases hw : splitWsAux [] v with
          | nil => exact absurd hw h5
          | cons w ws =>
            rw [unwords_cons_cons, ← hw, ih.1]
            simp [collapseWsAux, hd]
      | false =>
        have h1 : splitWsAux (c :: acc) (d :: v) = splitWsAux (d :: c :: acc) v := by
          simp [splitWsAux, hd]
        rw [h1, ih.2 d (c :: acc), stripRight_cons_not_ws v hd]
        simp [collapseWsAux, hd]

/-- Normal form: collapsing whitespace in a stripped string is joining its
words with single spaces. -/
theorem collapse_strip_eq_unwords (l : List Char) :
    collapseWsAux false (pyStripL l) = unwords (splitWs l) := by
  rw [splitWs, (splitWsAux_unwords l).1, collapseWsAux_true_eq,
    dropWhile_stripRight_comm, pyStripL]

theorem isWs_pyLowerChar (c : Char) : isWs (pyLowerChar c) = isWs c := by
  unfold pyLowerChar
  split <;> rfl

theorem stripRight_map_pyLower (u : List Char) :
    stripRight (u.map pyLowerChar) = (stripRight u).map pyLowerChar := by
  induction u with
  | nil => simp [stripRight]
  | cons c t ih =>
    simp only [List.map_cons, stripRight, ih, List.isEmpty_eq_true, List.map_eq_nil_iff,
      isWs_pyLowerChar]
    by_cases hr : stripRight t = [] <;> by_cases hc : isWs c = true <;>
      simp [hr, hc, List.isEmpty_iff]

theorem pyStripL_map_pyLower (l : List Char) :
    (pyStripL l).map pyLowerChar = pyStripL (l.map pyLowerChar) := by
  unfold pyStripL
  rw [← stripRight_map_pyLower, List.dropWhile_map]
  have : (isWs ∘ pyLowerChar) = isWs := by
    funext c; exact isWs_pyLowerChar c
  rw [this]

/-- The normalization key of a string is the single-space join of its
lowercased words. -/
theorem normKey_eq_unwords (s : String) :
    normKey s = ⟨unwords (wordsLower s)⟩ := by
  unfold normKey wordsLower
  rw [pyStripL_map_pyLower, collapse_strip_eq_unwords]

/-! ## Idempotence of `strip`, and pass-2 identifier facts -/

theorem stripRight_idem (u : List Char) : stripRight (stripRight u) = stripRight u := by
  induction u with
  | nil => simp [stripRight]
  | cons c t ih =>
    rw [stripRight_cons]
    by_cases hr : stripRight t = []
    · rw [if_pos hr]
      by_cases hc : isWs c = true
      · simp [hc, stripRight]
      · simp [hc, stripRight_cons, stripRight, hr]
    · rw [if_neg hr, stripRight_cons, ih, if_neg hr]

theorem dropWhile_stripRight_of_head (u : List Char) (h : u.dropWhile isWs = u) :
    (stripRight u).dropWhile isWs = stripRight u := by
  cases u with
  | nil => simp [stripRight]
  | cons c t =>
    have hc : isWs c = false := by
      by_contra hcc
      have hc' : isWs c = true := by
        cases h' : isWs c
        · exact absurd h' hcc
        · rfl
      rw [List.dropWhile_cons, hc'] at h
      simp only [if_true] at h
      have h4 := congrArg List.length h
      have hle := (List.dropWhile_sublist (l := t) (p := isWs)).length_le
      simp at h4
      omega
    rw [stripRight_cons]
    by_cases hr : stripRight t = []
    · rw [if_pos hr]
      simp [hc]
    · rw [if_neg hr, List.dropWhile_cons, hc]
      simp

theorem dropWhile_isWs_idem (l : List Char) :
    (l.dropWhile isWs).dropWhile isWs = l.dropWhile isWs := by
  induction l with
  | nil => rfl
  | cons c t ih =>
    by_cases hc : isWs c = true
    · simp [List.dropWhile_cons, hc, ih]
    · simp [List.dropWhile_cons, hc]

theorem pyStripL_idem (l : List Char) : pyStripL (pyStripL l) = pyStripL l := by
  unfold pyStripL
  rw [dropWhile_stripRight_of_head _ (dropWhile_isWs_idem l), stripRight_idem]

theorem pyStrip_idem (s : String) : pyStrip (pyStrip s) = pyStrip s := by
  unfold pyStrip
  exact congrArg String.mk (pyStripL_idem s.data)

theorem fallbackGid_props {n : XElem} {g : String} (h : fallbackGid n = some g) :
    g ≠ "" ∧ pyStrip g = g := by
  unfold fallbackGid at h
  rcases hf : n.find (gTag "id") with _ | gid_el
  · simp [hf] at h
  · simp only [hf] at h
    rcases ht : gid_el.text with _ | t
    · simp [ht] at h
    · simp only [ht] at h
      by_cases h1 : t = ""
      · simp [h1] at h
      · rw [if_neg h1] at h
        by_cases h2 : pyStrip t = ""
        · simp [h2] at h
        · rw [if_neg h2] at h
          have hg : pyStrip t = g := by
            injection h
          subst hg
          exact ⟨h2, pyStrip_idem t⟩

theorem passTwoGo_cons (dflt : String) (n : XElem) (ns : List XElem) (seen : List String) :
    passTwoGo dflt (n :: ns) seen
      = match fallbackGid n with
        | none => passTwoGo dflt ns seen
        | some gid =>
          if gid ∈ seen then passTwoGo dflt ns seen
          else itemFromNode dflt n gid :: passTwoGo dflt ns (gid :: seen) := rfl

theorem passTwoGo_mem_props (dflt : String) :
    ∀ (nodes : List XElem) (seen : List String) (i : Item),
      i ∈ passTwoGo dflt nodes seen → i.id ∉ seen ∧ i.id ≠ "" ∧ pyStrip i.id = i.id := by
  intro nodes
  induction nodes with
  | nil => intro seen i h; simp [passTwoGo] at h
  | cons n ns ih =>
    intro seen i h
    rw [passTwoGo_cons] at h
    rcases hg : fallbackGid n with _ | g
    · simp only [hg] at h; exact ih seen i h
    · simp only [hg] at h
      by_cases hs : g ∈ seen
      · rw [if_pos hs] at h; exact ih seen i h
      · rw [if_neg hs] at h
        rcases List.mem_cons.mp h with rfl | h2
        · exact ⟨hs, (fallbackGid_props hg).1, (fallbackGid_props hg).2⟩
        · have h3 := ih (g :: seen) i h2
          exact ⟨fun hmem => h3.1 (List.mem_cons_of_mem _ hmem), h3.2⟩

theorem passTwoGo_ids_nodup (dflt : String) :
    ∀ (nodes : List XElem) (seen : List String),
      ((passTwoGo dflt nodes seen).map Item.id).Nodup := by
  intro nodes
  induction nodes with
  | nil => intro seen; simp [passTwoGo]
  | cons n ns ih =>
    intro seen
    rw [passTwoGo_cons]
    rcases hg : fallbackGid n with _ | g
    · simp only [hg]; exact ih seen
    · simp only [hg]
      by_cases hs : g ∈ seen
      · rw [if_pos hs]; exact ih seen
      · rw [if_neg hs, List.map_cons]
        refine List.nodup_cons.mpr ⟨?_, ih (g :: seen)⟩
        intro hmem
        rcases List.mem_map.mp hmem with ⟨j, hj, hjid⟩
        have h1 := (passTwoGo_mem_props dflt ns (g :: seen) j hj).1
        apply h1
        rw [hjid]
        exact List.mem_cons_self _ _

/-! ## Structure of `extract_items` -/

theorem extract_items_cases (dflt : String) (root : XElem) :
    extract_items dflt root
      = if (passOne dflt root).isEmpty then
          (if (passTwo dflt root).isEmpty then .error noItemsMsg
           else .ok (passTwo dflt root))
        else .ok (passOne dflt root) := by
  unfold extract_items
  by_cases h : (passOne dflt root).isEmpty <;> simp [h]

/-! ## Writers: the XML item entries and pointwise row agreement -/

theorem toList_ofList (l : List XElem) : (XList.ofList l).toList = l := by
  induction l with
  | nil => rfl
  | cons e es ih => simp [XList.ofList, XList.toList, ih]

theorem xmlItemEntries_eq_map (store : String) (items : List Item) :
    xmlItemEntries store items = items.map (write_xml_item store) := by
  unfold xmlItemEntries write_xml
  simp only [XElem.children, XList.toList, List.headD_cons, toList_ofList, List.nil_append]
  rw [List.filter_cons_of_neg (by decide), List.filter_cons_of_neg (by decide),
    List.filter_cons_of_neg (by decide), show ([].append (List.map (write_xml_item store) items)) = List.map (write_xml_item store) items from rfl]
  refine List.filter_eq_self.mpr ?_
  intro a ha
  rcases List.mem_map.mp ha with ⟨it, _, rfl⟩
  rfl

theorem rowOfXmlItem_write (store : String) (it : Item) :
    rowOfXmlItem (write_xml_item store it) = write_tsv_row store it := by
  rcases hp : it.price with _ | p
  · simp [rowOfXmlItem, write_xml_item, write_tsv_row, hp, XElem.find, XElem.children,
      XList.findTag, XList.ofList, XElem.tag, XElem.text, gTag]
  · by_cases hep : p = "" <;>
      simp [rowOfXmlItem, write_xml_item, write_tsv_row, hp, hep, XElem.find, XElem.children,
        XList.findTag, XList.ofList, XElem.tag, XElem.text, gTag]

/-! ## Normalizer facts -/

theorem normalize_of_wordsLower_eq (d k v s : String)
    (hk : normKey k = k) (hnil : wordsLower k ≠ [])
    (hlook : _ALLOWED_AVAIL.lookup k = some v)
    (hw : wordsLower s = wordsLower k) :
    normalize_availability d (some s) = v := by
  have hs : s ≠ "" := by
    intro h
    subst h
    apply hnil
    rw [← hw]
    rfl
  have hns : normKey s = k := by
    rw [normKey_eq_unwords, hw, ← normKey_eq_unwords, hk]
  show (if s = "" then d else (_ALLOWED_AVAIL.lookup (normKey s)).getD d) = v
  rw [if_neg hs, hns, hlook]
  rfl

/-! ## The claims -/

/-- C1 (amended): every Item produced by the fallback pass has an id that is
non-empty and unchanged by trimming (so non-empty after trimming), and the
fallback pass skips nodes whose identifier is absent or whitespace-only; in
the primary pass, however, an item is skipped exactly when its extracted
identifier is absent or the empty string before trimming, so a
whitespace-only identifier is not skipped and yields an Item whose id is
empty after trimming. -/
theorem c1_item_id_invariant :
    (∀ (dflt : String) (root : XElem) (i : Item),
        i ∈ passTwo dflt root → i.id ≠ "" ∧ pyStrip i.id = i.id)
    ∧ (∀ (dflt : String) (it : XElem),
        itemFromRssItem dflt it = none
          ↔ (pyOr (it.findtext (gTag "id")) (it.findtext (plainTag "id")) = none
             ∨ pyOr (it.findtext (gTag "id")) (it.findtext (plainTag "id")) = some "")) := by
  constructor
  · intro dflt root i h
    exact (passTwoGo_mem_props dflt root.subtree [] i h).2
  · intro dflt it
    unfold itemFromRssItem
    rcases h : pyOr (it.findtext (gTag "id")) (it.findtext (plainTag "id")) with _ | g
    · simp
    · by_cases hg : g = ""
      · subst hg
        simp
      · simp [hg]

/-- C1 witness: a fallback-produced Item with a concrete non-empty id. -/
theorem c1_item_id_invariant_witness :
    ("B1" : String) ≠ "" ∧ pyStrip "B1" = "B1" :=
  c1_item_id_invariant.1 "in_stock" exDocFallback ⟨"B1", "in_stock", none⟩ (by decide)

/-- C1 counterexample: a parsed document whose single `item` carries a
whitespace-only `g:id`; the primary pass does not skip it (the identifier is
truthy) and emits an Item whose id is `""` after trimming, so not every
extracted Item has a non-empty id. -/
theorem c1_counterexample :
    extract_items "in_stock" exDocWsId
      = .ok [{ id := "", availability := "in_stock", price := none }]
    ∧ Item.id { id := "", availability := "in_stock", price := none } = "" :=
  ⟨rfl, rfl⟩

/-- C2: the XML writer's `item` entries and the TSV writer's data rows agree
row for row: read back as rows, the XML entries are exactly the TSV data
rows (same count, same insertion order, identical id, store_code and
availability texts, with the price child's text matching the price field);
and an absent price is rendered as an omitted `g:price` element in the XML
and as an empty-string field in the TSV. -/
theorem c2_writers_agree (store : String) (items : List Item) :
    (xmlItemEntries store items).map rowOfXmlItem = (write_tsv store items).tail
    ∧ (xmlItemEntries store items).length = items.length
    ∧ ((write_tsv store items).tail).length = items.length
    ∧ ∀ it : Item, it.price = none →
        (write_xml_item store it).find (gTag "price") = none
        ∧ write_tsv_row store it = [it.id, store, it.availability, ""] := by
  refine ⟨?_, ?_, ?_, ?_⟩
  · rw [xmlItemEntries_eq_map]
    show (items.map (write_xml_item store)).map rowOfXmlItem = items.map (write_tsv_row store)
    rw [List.map_map]
    exact List.map_congr_left fun it _ => rowOfXmlItem_write store it
  · rw [xmlItemEntries_eq_map, List.length_map]
  · show (items.map (write_tsv_row store)).length = items.length
    rw [List.length_map]
  · intro it hp
    constructor
    · simp [write_xml_item, hp, XElem.find, XElem.children, XList.findTag, XList.ofList,
        XElem.tag, gTag]
    · simp [write_tsv_row, hp]

/-- C2 witness: the agreement instantiated at a concrete item without a
price. -/
theorem c2_writers_agree_witness :
    (write_xml_item "MAIN" { id := "A1", availability := "in_stock", price := none }).find
        (gTag "price") = none
    ∧ write_tsv_row "MAIN" { id := "A1", availability := "in_stock", price := none }
        = ["A1", "MAIN", "in_stock", ""] :=
  (c2_writers_agree "MAIN" [{ id := "A1", availability := "in_stock", price := none }]).2.2.2
    { id := "A1", availability := "in_stock", price := none } rfl

/-- C3 counterexample: a run in which configuration, fetch, extraction and
the XML write all succeed but the TSV write fails leaves exactly one of the
two output files on disk, so a fatal error during writing does produce
partial output. -/
theorem c3_counterexample :
    mainRun true (.ok exDocBasic) "in_stock" true false
      = (.error "write failed", ⟨true, false⟩)
    ∧ (DistFS.mk true false).xml_written = true
    ∧ (DistFS.mk true false).tsv_written = false :=
  ⟨rfl, rfl, rfl⟩

/-- C3 (amended): a fatal error during configuration, fetch, extraction, or
the XML write itself leaves no output file, and a fully successful run
writes both files; but the two writes are sequential (XML before TSV) with
no cleanup, so a failure of the TSV write leaves the XML file already
written — partial output is impossible only for failures before or at the
first write. -/
theorem c3_no_partial_before_writing (cfgOk : Bool) (fetched : Except String XElem)
    (dflt : String) (xmlOk tsvOk : Bool) :
    (cfgOk = false → (mainRun cfgOk fetched dflt xmlOk tsvOk).2 = ⟨false, false⟩)
    ∧ (∀ e, fetched = .error e → (mainRun cfgOk fetched dflt xmlOk tsvOk).2 = ⟨false, false⟩)
    ∧ (∀ tree e, fetched = .ok tree → extract_items dflt tree = .error e →
        (mainRun cfgOk fetched dflt xmlOk tsvOk).2 = ⟨false, false⟩)
    ∧ (xmlOk = false → (mainRun cfgOk fetched dflt xmlOk tsvOk).2 = ⟨false, false⟩)
    ∧ ((mainRun cfgOk fetched dflt xmlOk tsvOk).1 = .ok () →
        (mainRun cfgOk fetched dflt xmlOk tsvOk).2 = ⟨true, true⟩) := by
  cases cfgOk with
  | false =>
    refine ⟨fun _ => rfl, fun e _ => rfl, fun tree e _ _ => rfl, fun _ => rfl, fun h => ?_⟩
    exact absurd h (by simp [mainRun])
  | true =>
    rcases fetched with e | tree
    · refine ⟨fun h => by simp at h, fun e' _ => rfl, fun tree e' h => by simp at h,
        fun _ => rfl, fun h => ?_⟩
      exact absurd h (by simp [mainRun])
    · rcases hx : extract_items dflt tree with e' | its
    
      · refine ⟨fun h => by simp at h, fun e'' h => by simp at h, fun tree' e'' ht _ => ?_,
          fun _ => ?_, fun h => ?_⟩
        · simp [mainRun, hx]
        · simp [mainRun, hx]
        · exact absurd h (by simp [mainRun, hx])
      · cases xmlOk with
        | false =>
          refine ⟨fun h => by simp at h, fun e'' h => by simp at h, fun tree' e'' ht hx' => ?_,
            fun _ => by simp [mainRun, hx], fun h => ?_⟩
          · injection ht with ht'
            subst ht'
            rw [hx] at hx'
            exact absurd hx' (by simp)
          · exact absurd h (by simp [mainRun, hx])
        | true =>
          cases tsvOk with
          | false =>
            refine ⟨fun h => by simp at h, fun e'' h => by simp at h,
              fun tree' e'' ht hx' => ?_, fun h => by simp at h, fun h => ?_⟩
            · injection ht with ht'
              subst ht'
              rw [hx] at hx'
              exact absurd hx' (by simp)
            · exact absurd h (by simp [mainRun, hx])
          | true =>
            refine ⟨fun h => by simp at h, fun e'' h => by simp at h,
              fun tree' e'' ht hx' => ?_, fun h => by simp at h,
              fun _ => by simp [mainRun, hx]⟩
            injection ht with ht'
            subst ht'
            rw [hx] at hx'
            exact absurd hx' (by simp)

/-- C3 witness: a missing-configuration run leaves no output files. -/
theorem c3_no_partial_before_writing_witness :
    (mainRun false (.ok exDocBasic) "in_stock" true true).2 = ⟨false, false⟩ :=
  (c3_no_partial_before_writing false (.ok exDocBasic) "in_stock" true true).1 rfl

/-- C4: for every (key, value) pair of the synonym table and every variant
of the key differing only in letter case, leading/trailing whitespace, or
internal whitespace runs (i.e. any string with the same lowercased word
sequence), `normalize_availability` returns the table's canonical value,
whatever the configured default; in particular `"in stock"` maps to
`in_stock` and `"Brak"` maps to `out_of_stock`. -/
theorem c4_synonym_table (d : String) :
    (∀ k v s : String, (k, v) ∈ _ALLOWED_AVAIL → wordsLower s = wordsLower k →
        normalize_availability d (some s) = v)
    ∧ normalize_availability d (some "in stock") = "in_stock"
    ∧ normalize_availability d (some "Brak") = "out_of_stock" := by
  refine ⟨?_, rfl, rfl⟩
  intro k v s hmem hw
  fin_cases hmem <;>
    exact normalize_of_wordsLower_eq d _ _ s (by decide) (by decide) (by decide) hw

/-- C4 witness: a concrete case/whitespace variant of a table key. -/
theorem c4_synonym_table_witness :
    ("in stock", "in_stock") ∈ _ALLOWED_AVAIL
    ∧ wordsLower " IN  Stock " = wordsLower "in stock"
    ∧ normalize_availability "in_stock" (some " IN  Stock ") = "in_stock" :=
  ⟨by decide, by decide,
    (c4_synonym_table "in_stock").1 "in stock" "in_stock" " IN  Stock " (by decide) (by decide)⟩

/-- C5: `normalize_availability` returns exactly the configured default on
absent input, on empty input, and on any input whose normalized key
(whitespace-collapsed, trimmed, lowercased) is not in the synonym table;
being a total function, it raises no error. -/
theorem c5_default_fallback (d : String) :
    normalize_availability d none = d
    ∧ normalize_availability d (some "") = d
    ∧ ∀ s : String, _ALLOWED_AVAIL.lookup (normKey s) = none →
        normalize_availability d (some s) = d := by
  refine ⟨rfl, rfl, fun s h => ?_⟩
  by_cases hs : s = ""
  · subst hs; rfl
  · show (if s = "" then d else (_ALLOWED_AVAIL.lookup (normKey s)).getD d) = d
    rw [if_neg hs, h]
    rfl

/-- C5 witness: a concrete unrecognized value falls back to the default. -/
theorem c5_default_fallback_witness :
    _ALLOWED_AVAIL.lookup (normKey "unknown value") = none
    ∧ normalize_availability "in_stock" (some "unknown value") = "in_stock" :=
  ⟨by decide, (c5_default_fallback "in_stock").2.2 "unknown value" (by decide)⟩

/-- C6: whenever the primary pass (all descendant `item` elements) yields at
least one Item, `extract_items` returns exactly the primary-pass sequence,
and the fallback pass contributes nothing. -/
theorem c6_primary_pass_wins (dflt : String) (root : XElem)
    (h : passOne dflt root ≠ []) :
    extract_items dflt root = .ok (passOne dflt root) := by
  rw [extract_items_cases]
  have h2 : (passOne dflt root).isEmpty = false := by
    rw [List.isEmpty_eq_false_iff_exists_mem]
    rcases List.exists_mem_of_ne_nil _ h with ⟨x, hx⟩
    exact ⟨x, hx⟩
  rw [h2]
  rfl

/-- C6 witness: on a feed in the primary shape the result is the
primary-pass sequence. -/
theorem c6_primary_pass_wins_witness :
    extract_items "in_stock" exDocBasic = .ok (passOne "in_stock" exDocBasic) :=
  c6_primary_pass_wins "in_stock" exDocBasic (by decide)

/-- C7: the fallback pass yields Items with pairwise-distinct ids (first
occurrence of each identifier wins); in particular, on a feed with no
`item` elements and three nodes bearing direct namespaced ids `B1`, `B2`,
`B1`, extraction yields exactly the two Items `B1` then `B2`. -/
theorem c7_fallback_dedup :
    (∀ (dflt : String) (root : XElem), ((passTwo dflt root).map Item.id).Nodup)
    ∧ extract_items "in_stock" exDocFallback
        = .ok [{ id := "B1", availability := "in_stock", price := none },
               { id := "B2", availability := "in_stock", price := none }] :=
  ⟨fun dflt root => passTwoGo_ids_nodup dflt root.subtree [], rfl⟩

/-- C8: `extract_items` fails — with the no-items-with-identifier message —
exactly when both extraction passes yield zero Items. -/
theorem c8_structural_error_iff (dflt : String) (root : XElem) :
    extract_items dflt root = .error noItemsMsg
      ↔ (passOne dflt root = [] ∧ passTwo dflt root = []) := by
  rw [extract_items_cases]
  by_cases h1 : passOne dflt root = []
  · by_cases h2 : passTwo dflt root = []
    · simp [h1, h2]
    · simp [h1, h2, List.isEmpty_iff]
  · simp [h1, List.isEmpty_iff]

/-- C8 witness: a well-formed but itemless feed triggers the structural
error. -/
theorem c8_structural_error_iff_witness :
    extract_items "in_stock" exDocEmpty = .error noItemsMsg :=
  (c8_structural_error_iff "in_stock" exDocEmpty).mpr ⟨rfl, rfl⟩

/-- C9: `fetch_xml` makes at most 3 attempts; a success on any attempt
returns that document at once (1, 2 or 3 attempts used, having slept 2
seconds after a failed first attempt and 4 seconds after a failed second);
three failures re-raise the third error after both sleeps. -/
theorem c9_fetch_retry (oracle : Nat → Except String XElem) :
    (∀ d, oracle 0 = .ok d → fetch_xml oracle = (.ok d, 1, []))
    ∧ (∀ e0 d, oracle 0 = .error e0 → oracle 1 = .ok d →
        fetch_xml oracle = (.ok d, 2, [2]))
    ∧ (∀ e0 e1 d, oracle 0 = .error e0 → oracle 1 = .error e1 → oracle 2 = .ok d →
        fetch_xml oracle = (.ok d, 3, [2, 4]))
    ∧ (∀ e0 e1 e2, oracle 0 = .error e0 → oracle 1 = .error e1 → oracle 2 = .error e2 →
        fetch_xml oracle = (.error e2, 3, [2, 4]))
    ∧ (fetch_xml oracle).2.1 ≤ 3 := by
  refine ⟨?_, ?_, ?_, ?_, ?_⟩
  · intro d h0
    simp [fetch_xml, fetchGo, h0]
  · intro e0 d h0 h1
    simp [fetch_xml, fetchGo, h0, h1]
  · intro e0 e1 d h0 h1 h2
    simp [fetch_xml, fetchGo, h0, h1, h2]
  · intro e0 e1 e2 h0 h1 h2
    simp [fetch_xml, fetchGo, h0, h1, h2]
  · rcases h0 : oracle 0 with e0 | d0
    · rcases h1 : oracle 1 with e1 | d1
      · rcases h2 : oracle 2 with e2 | d2 <;> simp [fetch_xml, fetchGo, h0, h1, h2]
      · simp [fetch_xml, fetchGo, h0, h1]
    · simp [fetch_xml, fetchGo, h0]

/-- C9 witness: three failing attempts sleep 2 then 4 seconds and re-raise
the last error. -/
theorem c9_fetch_retry_witness :
    fetch_xml (fun _ => .error "boom") = (.error "boom", 3, [2, 4]) :=
  (c9_fetch_retry (fun _ => .error "boom")).2.2.2.1 "boom" "boom" "boom" rfl rfl rfl

/-- C10: the primary pass performs no deduplication — on a primary-shape
feed with two `item` elements sharing the identifier `X`, extraction
returns two Items with the same id, which appear as two entries in the XML
output and two data rows in the TSV output — whereas the fallback pass
collapses two nodes with identifier `X` into a single Item. -/
theorem c10_primary_no_dedup :
    extract_items "in_stock" exDocDupPrimary
      = .ok [{ id := "X", availability := "in_stock", price := some "10.00 PLN" },
             { id := "X", availability := "in_stock", price := some "12.00 PLN" }]
    ∧ (xmlItemEntries "MAIN"
        [{ id := "X", availability := "in_stock", price := some "10.00 PLN" },
         { id := "X", availability := "in_stock", price := some "12.00 PLN" }]).length = 2
    ∧ (write_tsv "MAIN"
        [{ id := "X", availability := "in_stock", price := some "10.00 PLN" },
         { id := "X", availability := "in_stock", price := some "12.00 PLN" }]).length = 3
    ∧ passTwo "in_stock" exDocDupNodes
        = [{ id := "X", availability := "in_stock", price := none }] :=
  ⟨rfl, rfl, rfl, rfl⟩
